import Mathlib

/-!
Verification of the in-memory storage backend (`backend/mem/mem_backend.go`).

The file embeds the Go source shallowly: the blob map `memMap` becomes an
association list, functions that assign `be.data` return the map after the
call together with their result, and functions that never assign `be.data`
are pure. Machine integers: the `uint` offsets/lengths become `Nat`, the
`int64` offset of `memLoad` becomes `Int` (no arithmetic is performed on
them, only comparisons and slicing, so no wraparound can occur).
-/

/-- Blob categories: `backend.Type` in restic (Data, Key, Lock, Snapshot,
Index, Config). -/
inductive BType where
  | data
  | key
  | lock
  | snapshot
  | index
  | config
deriving DecidableEq

/-- Map key, `type entry struct { Type backend.Type; Name string }`. -/
structure Entry where
  type : BType
  name : String
deriving DecidableEq

/-- Error kinds of the backend (spec section 7). The Go code returns
`errors.New` values with fixed texts, `io.ErrUnexpectedEOF`, and errors
propagated from `backend.Handle.Valid`:
`alreadyExists` is "already present", `notFound` is "no such data",
`offsetOutOfRange` is "offset beyond end of file", `unexpectedShort` is
`io.ErrUnexpectedEOF`, and `invalidHandle` stands for an error propagated
from handle validation. -/
inductive Err where
  | alreadyExists
  | notFound
  | offsetOutOfRange
  | unexpectedShort
  | invalidHandle
deriving DecidableEq

/-- `type memMap map[entry][]byte`, modelled as an association list. The Go
map's key uniqueness corresponds to `Nodup` of the keys, which holds for
every store reachable through the operations below. -/
abbrev MemMap : Type := List (Entry × List Nat)

/-- Go map lookup `be.data[e]`. -/
def MemMap.find : MemMap → Entry → Option (List Nat)
  | [], _ => none
  | (k, v) :: rest, e => if k = e then some v else MemMap.find rest e

/-- `func (be *MemoryBackend) insert`: fails with "already present" when the
key is occupied, otherwise stores the bytes under the key. Returns the error
(if any) together with the map after the call. -/
def MemMap.insert (s : MemMap) (t : BType) (name : String) (d : List Nat) :
    Option Err × MemMap :=
  match MemMap.find s (Entry.mk t name) with
  | some _ => (some Err.alreadyExists, s)
  | none => (none, (Entry.mk t name, d) :: s)

/-- `memTest`: plain presence check. Note that it does NOT rewrite the name
for the Config category. -/
def memTest (be : MemMap) (t : BType) (name : String) : Bool :=
  (MemMap.find be (Entry.mk t name)).isSome

/-- `tempMemEntry`: the staging buffer holding data written before finalize. -/
structure TempMemEntry where
  data : List Nat
deriving DecidableEq

/-- `Write`: appends to the buffer and reports the count of bytes accepted. -/
def TempMemEntry.write (e : TempMemEntry) (p : List Nat) : TempMemEntry × Nat :=
  (TempMemEntry.mk (e.data ++ p), p.length)

/-- `Size`: current accumulated length. -/
def TempMemEntry.size (e : TempMemEntry) : Nat := e.data.length

/-- `Finalize`: rewrites the name to "" for the Config category, then inserts
the accumulated bytes into the map. -/
def TempMemEntry.finalize (e : TempMemEntry) (be : MemMap) (t : BType)
    (name : String) : Option Err × MemMap :=
  let name := if t = BType.config then "" else name
  MemMap.insert be t name e.data

/-- `memCreate`: a fresh empty staging buffer. -/
def memCreate : TempMemEntry := TempMemEntry.mk []

/-- `memGetReader`: Config rewrite, presence check, offset check, then the
slice from `offset`, clamped to `length` when `length > 0`. The returned
bytes are what the `io.ReadCloser` yields. -/
def memGetReader (be : MemMap) (t : BType) (name : String)
    (offset length : Nat) : Except Err (List Nat) :=
  let name := if t = BType.config then "" else name
  match MemMap.find be (Entry.mk t name) with
  | none => Except.error Err.notFound
  | some buf =>
    if offset > buf.length then Except.error Err.offsetOutOfRange
    else
      let buf := buf.drop offset
      if length > 0 then
        let length := if length > buf.length then buf.length else length
        Except.ok (buf.take length)
      else Except.ok buf

/-- `backend.Handle` (declared outside this file's source): a (type, name)
reference to a blob. -/
structure Handle where
  type : BType
  name : String
deriving DecidableEq

/-- `memLoad`: validates the handle (`h.Valid()` lives outside the source
file, so validation is the parameter `vf` and its error is propagated),
rewrites the name for Config, checks presence and then the offset, and copies
`min plen remaining` bytes via `copy(p, buf)`, returning `unexpectedShort`
(`io.ErrUnexpectedEOF`) when the destination is longer than the remaining
bytes. The destination `p` is modelled by its length `plen`; the result is
the returned count and error. The `none` result models the Go runtime panic
on `buf[off:]` with a negative `off`. -/
def memLoad (vf : Handle → Option Err) (be : MemMap) (h : Handle)
    (plen : Nat) (off : Int) : Option (Nat × Option Err) :=
  match vf h with
  | some e => some (0, some e)
  | none =>
    let nm := if h.type = BType.config then "" else h.name
    match MemMap.find be (Entry.mk h.type nm) with
    | none => some (0, some Err.notFound)
    | some buf =>
      if off > (buf.length : Int) then some (0, some Err.offsetOutOfRange)
      else if off < 0 then none
      else
        let buf := buf.drop off.toNat
        let n := min plen buf.length
        if plen > buf.length then some (n, some Err.unexpectedShort)
        else some (n, none)

/-- `memStat`: handle validation (parameter, as in `memLoad`), Config
rewrite, then the stored blob's size. -/
def memStat (vf : Handle → Option Err) (be : MemMap) (h : Handle) :
    Except Err Nat :=
  match vf h with
  | some e => Except.error e
  | none =>
    let nm := if h.type = BType.config then "" else h.name
    match MemMap.find be (Entry.mk h.type nm) with
    | none => Except.error Err.notFound
    | some e => Except.ok e.length

/-- `memRemove`: no Config rewrite; fails with "no such data" when the key is
absent, otherwise deletes the key. Returns the error (if any) together with
the map after the call. -/
def memRemove (be : MemMap) (t : BType) (name : String) : Option Err × MemMap :=
  match MemMap.find be (Entry.mk t name) with
  | none => (some Err.notFound, be)
  | some _ => (none, be.filter (fun p => decide (p.1 ≠ Entry.mk t name)))

/-- Byte-wise lexicographic comparison of character lists. UTF-8 byte order
coincides with code-point order, so this is exactly the order `sort.Strings`
sorts by. -/
def charListLe : List Char → List Char → Bool
  | [], _ => true
  | _ :: _, [] => false
  | a :: as, b :: bs =>
    if a.toNat < b.toNat then true
    else if b.toNat < a.toNat then false
    else charListLe as bs

/-- Strict byte-wise lexicographic comparison of character lists. -/
def charListLt : List Char → List Char → Bool
  | [], [] => false
  | [], _ :: _ => true
  | _ :: _, [] => false
  | a :: as, b :: bs =>
    if a.toNat < b.toNat then true
    else if b.toNat < a.toNat then false
    else charListLt as bs

/-- Lexicographic order on names (the order of `sort.Strings`). -/
def strLe (a b : String) : Prop := charListLe a.data b.data = true

/-- Strict lexicographic order on names. -/
def strLt (a b : String) : Prop := charListLt a.data b.data = true

instance : DecidableRel strLe := fun a b =>
  inferInstanceAs (Decidable (charListLe a.data b.data = true))

instance : DecidableRel strLt := fun a b =>
  inferInstanceAs (Decidable (charListLt a.data b.data = true))

/-- `memList`: under the lock, collect the names of all entries of the given
type and sort them (`sort.Strings`; every sorting algorithm produces the same
output list, modelled here with insertion sort). The goroutine then delivers
this snapshot (or a prefix of it, when `done` fires) over the channel; the
full stream is the returned list. -/
def memList (be : MemMap) (t : BType) : List String :=
  List.insertionSort strLe
    ((be.filter (fun p => decide (p.1.type = t))).map (fun p => p.1.name))

/-- `DeleteFn`: unconditionally replaces the map with a fresh empty one and
reports success. -/
def DeleteFn (_be : MemMap) : Option Err × MemMap := (none, [])

/-- `LocationFn`. -/
def LocationFn : String := "Memory Backend"

/-- One backend operation, as wired up in `New`. -/
inductive Op where
  | test (t : BType) (name : String)
  | finalize (e : TempMemEntry) (t : BType) (name : String)
  | getReader (t : BType) (name : String) (offset length : Nat)
  | load (h : Handle) (plen : Nat) (off : Int)
  | stat (h : Handle)
  | remove (t : BType) (name : String)
  | listNames (t : BType)
  | deleteAll

/-- Result of one backend operation. -/
inductive Res where
  | bool (b : Bool)
  | bytes (b : List Nat)
  | loaded (n : Nat) (e : Option Err)
  | size (n : Nat)
  | names (l : List String)
  | ok
  | err (e : Err)
  | panic
deriving DecidableEq

/-- Whether a result carries one of the error kinds of spec section 7 (for
`memLoad` the error is carried next to the partial count). -/
def Res.isErr : Res → Bool
  | Res.err _ => true
  | Res.loaded _ (some _) => true
  | _ => false

/-- The dispatcher wired up in `New`: each operation applied to the current
map, returning its result together with the map after the call. The
operations whose Go bodies never assign `be.data` (test, reads, stat, list)
return the map unchanged, exactly as the source does. -/
def step (vf : Handle → Option Err) (be : MemMap) : Op → Res × MemMap
  | Op.test t n => (Res.bool (memTest be t n), be)
  | Op.finalize e t n =>
    match TempMemEntry.finalize e be t n with
    | (some er, s) => (Res.err er, s)
    | (none, s) => (Res.ok, s)
  | Op.getReader t n o l =>
    match memGetReader be t n o l with
    | Except.error er => (Res.err er, be)
    | Except.ok b => (Res.bytes b, be)
  | Op.load h plen off =>
    match memLoad vf be h plen off with
    | none => (Res.panic, be)
    | some (n, e) => (Res.loaded n e, be)
  | Op.stat h =>
    match memStat vf be h with
    | Except.error er => (Res.err er, be)
    | Except.ok n => (Res.size n, be)
  | Op.remove t n =>
    match memRemove be t n with
    | (some er, s) => (Res.err er, s)
    | (none, s) => (Res.ok, s)
  | Op.listNames t => (Res.names (memList be t), be)
  | Op.deleteAll =>
    match DeleteFn be with
    | (some er, s) => (Res.err er, s)
    | (none, s) => (Res.ok, s)

/-- C3: inserting a key already present in the blob map fails with
AlreadyExists, leaves the map untouched, and the stored bytes for that key
remain exactly those of the first successful insert. -/
theorem spec_c3_insert_rejects_duplicates (s : MemMap) (t : BType) (n : String)
    (d d2 : List Nat) (h : MemMap.find s (Entry.mk t n) = some d) :
    (MemMap.insert s t n d2).1 = some Err.alreadyExists ∧
    (MemMap.insert s t n d2).2 = s ∧
    MemMap.find (MemMap.insert s t n d2).2 (Entry.mk t n) = some d := by
  simp [MemMap.insert, h]

/-- Witness for C3 at a concrete store. -/
theorem spec_c3_insert_rejects_duplicates_witness :
    (MemMap.insert [(Entry.mk BType.data "a", [1, 2])] BType.data "a" [9]).1 =
      some Err.alreadyExists ∧
    (MemMap.insert [(Entry.mk BType.data "a", [1, 2])] BType.data "a" [9]).2 =
      [(Entry.mk BType.data "a", [1, 2])] ∧
    MemMap.find
      (MemMap.insert [(Entry.mk BType.data "a", [1, 2])] BType.data "a" [9]).2
      (Entry.mk BType.data "a") = some [1, 2] :=
  spec_c3_insert_rejects_duplicates [(Entry.mk BType.data "a", [1, 2])]
    BType.data "a" [1, 2] [9] (by decide)

/-- C8: DeleteFn always succeeds and resets the store to empty: afterwards
every existence test is false and every category lists an empty stream. -/
theorem spec_c8_delete_all_resets (s : MemMap) :
    (DeleteFn s).1 = none ∧
    (∀ t n, memTest (DeleteFn s).2 t n = false) ∧
    (∀ t, memList (DeleteFn s).2 t = []) :=
  ⟨rfl, fun _ _ => rfl, fun _ => rfl⟩

/-- C10: for an absent (rewritten) key, GetReader and Load return NotFound
for every offset value, including offsets that would be out of range for any
blob and even negative Load offsets: existence is checked before the offset
is validated. -/
theorem spec_c10_notfound_before_offset (vf : Handle → Option Err)
    (s : MemMap) (t : BType) (n : String) (offset length plen : Nat)
    (off : Int) (hv : vf (Handle.mk t n) = none)
    (habs : MemMap.find s (Entry.mk t (if t = BType.config then "" else n)) = none) :
    memGetReader s t n offset length = Except.error Err.notFound ∧
    memLoad vf s (Handle.mk t n) plen off = some (0, some Err.notFound) := by
  constructor
  · simp only [memGetReader, habs]
  · simp only [memLoad, hv, habs]

/-- Witness for C10: an empty store, a huge GetReader offset and a negative
Load offset still give NotFound. -/
theorem spec_c10_notfound_before_offset_witness :
    memGetReader [] BType.data "a" 1000 7 = Except.error Err.notFound ∧
    memLoad (fun _ => none) [] (Handle.mk BType.data "a") 3 (-5) =
      some (0, some Err.notFound) :=
  spec_c10_notfound_before_offset (fun _ => none) [] BType.data "a" 1000 7 3
    (-5) (by decide) (by decide)

/-- C5: for a stored blob and a valid offset, GetReader with length zero
returns everything from the offset to the end, and GetReader with a nonzero
length larger than the remaining bytes returns exactly the remaining bytes
with no error (the length is silently clamped). -/
theorem spec_c5_read_length_clamped (s : MemMap) (t : BType) (n : String)
    (buf : List Nat) (offset length : Nat)
    (hbuf : MemMap.find s (Entry.mk t (if t = BType.config then "" else n)) = some buf)
    (hoff : offset ≤ buf.length) (hlen0 : 0 < length)
    (hlen : buf.length - offset < length) :
    memGetReader s t n offset 0 = Except.ok (buf.drop offset) ∧
    memGetReader s t n offset length = Except.ok (buf.drop offset) := by
  have hnot : ¬ offset > buf.length := Nat.not_lt.mpr hoff
  constructor
  · simp only [memGetReader, hbuf, if_neg hnot]
    simp
  · have hgt : (List.drop offset buf).length < length := by
      simp only [List.length_drop]
      omega
    simp only [memGetReader, hbuf, if_neg hnot, gt_iff_lt, if_pos hlen0,
      if_pos hgt, List.take_length]

/-- Witness for C5 at a concrete store: blob [10, 20, 30], offset 1,
length 5. -/
theorem spec_c5_read_length_clamped_witness :
    memGetReader [(Entry.mk BType.data "a", [10, 20, 30])] BType.data "a" 1 0 =
      Except.ok ([10, 20, 30].drop 1) ∧
    memGetReader [(Entry.mk BType.data "a", [10, 20, 30])] BType.data "a" 1 5 =
      Except.ok ([10, 20, 30].drop 1) :=
  spec_c5_read_length_clamped [(Entry.mk BType.data "a", [10, 20, 30])]
    BType.data "a" [10, 20, 30] 1 5 (by decide) (by decide) (by decide)
    (by decide)

/-- C6: for a stored blob and a valid offset, Load copies
`min plen remaining` bytes and returns that count; it signals UnexpectedShort
exactly when the destination is strictly larger than the remaining bytes, and
returns no error when the destination is filled completely. -/
theorem spec_c6_load_short_read (vf : Handle → Option Err) (s : MemMap)
    (t : BType) (n : String) (buf : List Nat) (plen off : Nat)
    (hv : vf (Handle.mk t n) = none)
    (hbuf : MemMap.find s (Entry.mk t (if t = BType.config then "" else n)) = some buf)
    (hoff : off ≤ buf.length) :
    memLoad vf s (Handle.mk t n) plen (off : Int) =
      some (min plen (buf.length - off),
        if buf.length - off < plen then some Err.unexpectedShort else none) := by
  have h1 : ¬ ((off : Int) > (buf.length : Int)) := by omega
  have h2 : ¬ ((off : Int) < 0) := by omega
  simp only [memLoad, hv, hbuf, if_neg h1, if_neg h2, Int.toNat_natCast,
    List.length_drop]
  by_cases hc : buf.length - off < plen
  · simp [hc]
  · simp [hc, Nat.not_lt.mp hc]

/-- Witness for C6 at a concrete store: blob [5, 6, 7], offset 1,
destination of length 4 (larger than the 2 remaining bytes). -/
theorem spec_c6_load_short_read_witness :
    memLoad (fun _ => none) [(Entry.mk BType.data "a", [5, 6, 7])]
      (Handle.mk BType.data "a") 4 ((1 : Nat) : Int) =
      some (min 4 ([5, 6, 7].length - 1),
        if [5, 6, 7].length - 1 < 4 then some Err.unexpectedShort else none) :=
  spec_c6_load_short_read (fun _ => none)
    [(Entry.mk BType.data "a", [5, 6, 7])] BType.data "a" [5, 6, 7] 4 1
    (by decide) (by decide) (by decide)

/-- C4 as stated is false for Load: for the stored blob [7] at (Data, "a"),
a Load at offset 1 (exactly the stored length) with a destination buffer of
length 1 copies 0 bytes and returns the UnexpectedShort signal, not a plain
success with an empty result. -/
theorem spec_c4_counterexample :
    memLoad (fun _ => none) [(Entry.mk BType.data "a", [7])]
      (Handle.mk BType.data "a") 1 1 = some (0, some Err.unexpectedShort) := by
  decide

/-- C4 amended: GetReader with offset equal to the stored length succeeds
with an empty result for every requested length; Load with offset equal to
the stored length copies 0 bytes and returns no error when the destination is
empty but signals UnexpectedShort when the destination is nonempty; and both
operations fail with OffsetOutOfRange for every offset strictly greater than
the stored length. -/
theorem spec_c4_amended_offset_boundary (vf : Handle → Option Err)
    (s : MemMap) (t : BType) (n : String) (buf : List Nat)
    (length plen plen2 offbig : Nat) (off : Int)
    (hv : vf (Handle.mk t n) = none)
    (hbuf : MemMap.find s (Entry.mk t (if t = BType.config then "" else n)) = some buf)
    (hbig : buf.length < offbig) (hoff : (buf.length : Int) < off) :
    memGetReader s t n buf.length length = Except.ok [] ∧
    memLoad vf s (Handle.mk t n) plen ((buf.length : Nat) : Int) =
      some (0, if 0 < plen then some Err.unexpectedShort else none) ∧
    memGetReader s t n offbig length = Except.error Err.offsetOutOfRange ∧
    memLoad vf s (Handle.mk t n) plen2 off =
      some (0, some Err.offsetOutOfRange) := by
  refine ⟨?_, ?_, ?_, ?_⟩
  · simp only [memGetReader, hbuf, lt_irrefl, if_false]
    simp [List.drop_length]
  · have := spec_c6_load_short_read vf s t n buf plen buf.length hv hbuf
      (le_refl _)
    simpa using this
  · simp only [memGetReader, hbuf, if_pos hbig]
  · simp only [memLoad, hv, hbuf, if_pos hoff]

/-- Witness for the amended C4 at a concrete store: blob [7] at (Data, "a"),
offsets 1 (= length) and 2 (> length). -/
theorem spec_c4_amended_offset_boundary_witness :
    memGetReader [(Entry.mk BType.data "a", [7])] BType.data "a"
      [7].length 3 = Except.ok [] ∧
    memLoad (fun _ => none) [(Entry.mk BType.data "a", [7])]
      (Handle.mk BType.data "a") 1 (([7].length : Nat) : Int) =
      some (0, if 0 < 1 then some Err.unexpectedShort else none) ∧
    memGetReader [(Entry.mk BType.data "a", [7])] BType.data "a" 2 3 =
      Except.error Err.offsetOutOfRange ∧
    memLoad (fun _ => none) [(Entry.mk BType.data "a", [7])]
      (Handle.mk BType.data "a") 2 9 = some (0, some Err.offsetOutOfRange) :=
  spec_c4_amended_offset_boundary (fun _ => none)
    [(Entry.mk BType.data "a", [7])] BType.data "a" [7] 3 1 2 2 9
    (by decide) (by decide) (by decide) (by decide)

/-- A successful finalize means the rewritten key was absent and the new map
is the old one extended with the rewritten key mapped to the buffer's bytes. -/
theorem finalize_success_shape (s : MemMap) (e : TempMemEntry) (t : BType)
    (n : String) (hsucc : (TempMemEntry.finalize e s t n).1 = none) :
    MemMap.find s (Entry.mk t (if t = BType.config then "" else n)) = none ∧
    (TempMemEntry.finalize e s t n).2 =
      (Entry.mk t (if t = BType.config then "" else n), e.data) :: s := by
  rcases hf : MemMap.find s (Entry.mk t (if t = BType.config then "" else n))
    with _ | v
  · exact ⟨rfl, by simp only [TempMemEntry.finalize, MemMap.insert, hf]⟩
  · exfalso
    simp only [TempMemEntry.finalize, MemMap.insert, hf] at hsucc
    exact Option.some_ne_none _ hsucc

/-- C1 as stated is false: finalizing a Config blob under the name "n1"
stores it under the fixed empty name, but TestExists and Remove do not apply
the singleton-category rewrite, so TestExists(Config, "n2") is false and
Remove(Config, "n2") fails with NotFound. -/
theorem spec_c1_counterexample :
    (TempMemEntry.finalize (TempMemEntry.mk [1]) [] BType.config "n1").1 =
      none ∧
    memTest (TempMemEntry.finalize (TempMemEntry.mk [1]) [] BType.config
      "n1").2 BType.config "n2" = false ∧
    (memRemove (TempMemEntry.finalize (TempMemEntry.mk [1]) [] BType.config
      "n1").2 BType.config "n2").1 = some Err.notFound := by
  decide

/-- C1 amended: the singleton-category rewrite is applied by Finalize,
GetReader, Load and Stat, but NOT by TestExists and Remove; after a Write
Buffer is finalized with Finalize(Config, n1), TestExists(Config, n2)
returns true and Remove(Config, n2) succeeds exactly when n2 is the fixed
empty name (or the literal key (Config, n2) was independently present in the
store beforehand). -/
theorem spec_c1_amended_no_rewrite_on_test_remove (s : MemMap)
    (e : TempMemEntry) (n1 n2 : String)
    (hsucc : (TempMemEntry.finalize e s BType.config n1).1 = none) :
    (memTest (TempMemEntry.finalize e s BType.config n1).2 BType.config n2 =
        true ∧
      (memRemove (TempMemEntry.finalize e s BType.config n1).2 BType.config
        n2).1 = none)
    ↔ (n2 = "" ∨
        (MemMap.find s (Entry.mk BType.config n2)).isSome = true) := by
  obtain ⟨hf, hs⟩ := finalize_success_shape s e BType.config n1 hsucc
  rw [hs]
  by_cases h2 : n2 = ""
  · subst h2
    simp [memTest, memRemove, MemMap.find]
  · rcases hfind : MemMap.find s (Entry.mk BType.config n2) with _ | v <;>
      simp [memTest, memRemove, MemMap.find, hfind, h2, Ne.symm h2]

/-- Witness for the amended C1 with n2 = "" against an empty store. -/
theorem spec_c1_amended_no_rewrite_on_test_remove_witness :
    (memTest (TempMemEntry.finalize (TempMemEntry.mk [3]) [] BType.config
        "n1").2 BType.config "" = true ∧
      (memRemove (TempMemEntry.finalize (TempMemEntry.mk [3]) [] BType.config
        "n1").2 BType.config "").1 = none)
    ↔ (("" : String) = "" ∨
        (MemMap.find [] (Entry.mk BType.config "")).isSome = true) :=
  spec_c1_amended_no_rewrite_on_test_remove [] (TempMemEntry.mk [3]) "n1" ""
    (by decide)

/-- C2 as stated is false for the Config category: finalizing (Config, "x")
succeeds (the bytes are stored under the fixed empty name) but
TestExists(Config, "x") returns false, because TestExists does not apply the
singleton-category rewrite. -/
theorem spec_c2_counterexample :
    (TempMemEntry.finalize (TempMemEntry.mk [2]) [] BType.config "x").1 =
      none ∧
    memTest (TempMemEntry.finalize (TempMemEntry.mk [2]) [] BType.config
      "x").2 BType.config "x" = false := by
  decide

/-- C2 amended: after a Write Buffer holding `bytes` is finalized
successfully under (category, name), TestExists holds for the category and
the rewritten name (the supplied name for every category except Config, the
empty name for Config), Stat(category, name) returns len(bytes), and
GetReader(category, name, offset 0, length 0) yields exactly `bytes` (Stat
and GetReader apply the rewrite themselves, so they accept the original
name). -/
theorem spec_c2_amended_round_trip (vf : Handle → Option Err) (s : MemMap)
    (e : TempMemEntry) (t : BType) (n : String)
    (hv : vf (Handle.mk t n) = none)
    (hsucc : (TempMemEntry.finalize e s t n).1 = none) :
    memTest (TempMemEntry.finalize e s t n).2 t
      (if t = BType.config then "" else n) = true ∧
    memStat vf (TempMemEntry.finalize e s t n).2 (Handle.mk t n) =
      Except.ok e.data.length ∧
    memGetReader (TempMemEntry.finalize e s t n).2 t n 0 0 =
      Except.ok e.data := by
  obtain ⟨hf, hs⟩ := finalize_success_shape s e t n hsucc
  rw [hs]
  refine ⟨?_, ?_, ?_⟩
  · simp [memTest, MemMap.find]
  · simp [memStat, hv, MemMap.find]
  · simp [memGetReader, MemMap.find]

/-- Witness for the amended C2: a Data blob [4, 5] under "b" written into an
empty store via a Write Buffer. -/
theorem spec_c2_amended_round_trip_witness :
    memTest (TempMemEntry.finalize (TempMemEntry.mk [4, 5]) [] BType.data
      "b").2 BType.data
      (if BType.data = BType.config then "" else "b") = true ∧
    memStat (fun _ => none) (TempMemEntry.finalize (TempMemEntry.mk [4, 5])
      [] BType.data "b").2 (Handle.mk BType.data "b") =
      Except.ok (TempMemEntry.mk [4, 5]).data.length ∧
    memGetReader (TempMemEntry.finalize (TempMemEntry.mk [4, 5]) [] BType.data
      "b").2 BType.data "b" 0 0 = Except.ok (TempMemEntry.mk [4, 5]).data :=
  spec_c2_amended_round_trip (fun _ => none) [] (TempMemEntry.mk [4, 5])
    BType.data "b" (by decide) (by decide)

/-- Transitivity of the byte-wise lexicographic comparison. -/
theorem charListLe_trans : ∀ xs ys zs : List Char,
    charListLe xs ys = true → charListLe ys zs = true →
    charListLe xs zs = true
  | [], _, _, _, _ => rfl
  | _ :: _, [], _, h1, _ => by simp [charListLe] at h1
  | _ :: _, _ :: _, [], _, h2 => by simp [charListLe] at h2
  | a :: as, b :: bs, c :: cs, h1, h2 => by
    simp only [charListLe] at h1 h2 ⊢
    rcases Nat.lt_trichotomy b.toNat a.toNat with hba | hba | hba
    · rw [if_neg (by omega), if_pos hba] at h1
      exact absurd h1 (by simp)
    · rw [if_neg (by omega), if_neg (by omega)] at h1
      rcases Nat.lt_trichotomy c.toNat b.toNat with hcb | hcb | hcb
      · rw [if_neg (by omega), if_pos hcb] at h2
        exact absurd h2 (by simp)
      · rw [if_neg (by omega), if_neg (by omega)] at h2
        rw [if_neg (by omega), if_neg (by omega)]
        exact charListLe_trans as bs cs h1 h2
      · rw [if_pos (by omega)]
    · rcases Nat.lt_trichotomy c.toNat b.toNat with hcb | hcb | hcb
      · rw [if_neg (by omega), if_pos hcb] at h2
        exact absurd h2 (by simp)
      · rw [if_pos (by omega)]
      · rw [if_pos (by omega)]

/-- Totality of the byte-wise lexicographic comparison. -/
theorem charListLe_total : ∀ xs ys : List Char,
    charListLe xs ys = true ∨ charListLe ys xs = true
  | [], _ => Or.inl rfl
  | _ :: _, [] => Or.inr rfl
  | a :: as, b :: bs => by
    simp only [charListLe]
    rcases Nat.lt_trichotomy a.toNat b.toNat with h | h | h
    · left
      rw [if_pos h]
    · simp only [if_neg (show ¬ a.toNat < b.toNat by omega),
        if_neg (show ¬ b.toNat < a.toNat by omega)]
      exact charListLe_total as bs
    · right
      rw [if_pos h]

/-- Distinct comparable lists compare strictly. -/
theorem charListLe_ne_lt : ∀ xs ys : List Char,
    charListLe xs ys = true → xs ≠ ys → charListLt xs ys = true
  | [], [], _, hne => absurd rfl hne
  | [], _ :: _, _, _ => rfl
  | _ :: _, [], h, _ => by simp [charListLe] at h
  | a :: as, b :: bs, h, hne => by
    simp only [charListLe] at h
    simp only [charListLt]
    rcases Nat.lt_trichotomy a.toNat b.toNat with hab | hab | hab
    · rw [if_pos hab]
    · have hab' : a = b := by
        apply Char.ext
        apply UInt32.toNat.inj
        exact hab
      subst hab'
      rw [if_neg (by omega), if_neg (by omega)] at h
      rw [if_neg (by omega), if_neg (by omega)]
      exact charListLe_ne_lt as bs h (fun hh => hne (by rw [hh]))
    · rw [if_neg (by omega), if_pos hab] at h
      exact absurd h (by simp)

instance : IsTrans String strLe :=
  ⟨fun a b c => charListLe_trans a.data b.data c.data⟩

instance : IsTotal String strLe :=
  ⟨fun a b => charListLe_total a.data b.data⟩

/-- Two strings with the same character data are equal. -/
theorem string_data_inj {a b : String} (h : a.data = b.data) : a = b := by
  cases a
  cases b
  exact congrArg String.mk h

/-- Distinct names related by the sort order are strictly related. -/
theorem strLe_ne_strLt {a b : String} (h : strLe a b) (hne : a ≠ b) :
    strLt a b :=
  charListLe_ne_lt a.data b.data h (fun hd => hne (string_data_inj hd))

/-- A key is found exactly when some value is paired with it in the list. -/
theorem mm_find_isSome_iff (s : MemMap) (k : Entry) :
    (MemMap.find s k).isSome = true ↔ ∃ v, (k, v) ∈ s := by
  induction s with
  | nil => simp [MemMap.find]
  | cons p rest ih =>
    obtain ⟨k', v'⟩ := p
    simp only [MemMap.find]
    by_cases hk : k' = k
    · subst hk
      rw [if_pos rfl]
      exact iff_of_true rfl ⟨v', List.mem_cons_self _ _⟩
    · rw [if_neg hk, ih]
      constructor
      · rintro ⟨v, hv⟩
        exact ⟨v, List.mem_cons_of_mem _ hv⟩
      · rintro ⟨v, hv⟩
        rcases List.mem_cons.mp hv with hv | hv
        · exact absurd (congrArg Prod.fst hv).symm hk
        · exact ⟨v, hv⟩

/-- With Nodup keys, the names collected for one category are Nodup. -/
theorem memList_names_nodup (s : MemMap) (t : BType)
    (hkeys : (s.map Prod.fst).Nodup) :
    ((s.filter (fun p => decide (p.1.type = t))).map
      (fun p => p.1.name)).Nodup := by
  have hsub : (s.filter (fun p => decide (p.1.type = t))).Sublist s :=
    List.filter_sublist s
  have hkeysf :
      ((s.filter (fun p => decide (p.1.type = t))).map Prod.fst).Nodup :=
    (hsub.map Prod.fst).nodup hkeys
  have hmm : (s.filter (fun p => decide (p.1.type = t))).map
        (fun p => p.1.name)
      = ((s.filter (fun p => decide (p.1.type = t))).map Prod.fst).map
        Entry.name := by
    simp [List.map_map]
  rw [hmm]
  apply List.Nodup.map_on ?_ hkeysf
  intro x hx y hy hxy
  have hxt : x.type = t := by
    rcases List.mem_map.mp hx with ⟨p, hp, rfl⟩
    simpa using (List.mem_filter.mp hp).2
  have hyt : y.type = t := by
    rcases List.mem_map.mp hy with ⟨p, hp, rfl⟩
    simpa using (List.mem_filter.mp hp).2
  cases x
  cases y
  simp_all

/-- A name appears in the listing exactly when the store holds it under the
listed category. -/
theorem memList_mem_iff (s : MemMap) (t : BType) (n : String) :
    n ∈ memList s t ↔ (MemMap.find s (Entry.mk t n)).isSome = true := by
  rw [memList, (List.perm_insertionSort strLe _).mem_iff, mm_find_isSome_iff]
  simp only [List.mem_map, List.mem_filter, decide_eq_true_eq]
  constructor
  · rintro ⟨⟨⟨pt, pn⟩, v⟩, ⟨hmem, htype⟩, rfl⟩
    simp only at htype
    subst htype
    exact ⟨v, hmem⟩
  · rintro ⟨v, hv⟩
    exact ⟨(Entry.mk t n, v), ⟨hv, rfl⟩, rfl⟩

/-- The listing is strictly sorted when the map keys are Nodup. -/
theorem memList_pairwise_lt (s : MemMap) (t : BType)
    (hkeys : (s.map Prod.fst).Nodup) :
    (memList s t).Pairwise strLt := by
  have hsorted : (memList s t).Pairwise strLe :=
    List.sorted_insertionSort strLe _
  have hnodup : (memList s t).Nodup :=
    (List.perm_insertionSort strLe _).nodup_iff.mpr
      (memList_names_nodup s t hkeys)
  exact (hsorted.and hnodup).imp (fun h => strLe_ne_strLt h.1 h.2)

/-- C7: the listing for a category is the snapshot of exactly the names
stored under that category, in strictly ascending lexicographic order. The
snapshot property is definitional in the embedding: the delivered stream is
the list computed under the lock at request time, so mutations performed
afterwards act on a new map value and cannot alter this list. -/
theorem spec_c7_list_sorted_snapshot (s : MemMap) (t : BType)
    (hkeys : (s.map Prod.fst).Nodup) :
    (memList s t).Pairwise strLt ∧
    (∀ n : String,
      n ∈ memList s t ↔ (MemMap.find s (Entry.mk t n)).isSome = true) :=
  ⟨memList_pairwise_lt s t hkeys, fun n => memList_mem_iff s t n⟩

/-- Witness for C7 at a concrete three-entry store with two categories. -/
theorem spec_c7_list_sorted_snapshot_witness :
    (memList [(Entry.mk BType.data "b", [1]), (Entry.mk BType.key "c", [2]),
      (Entry.mk BType.data "a", [3])] BType.data).Pairwise strLt ∧
    (∀ n : String,
      n ∈ memList [(Entry.mk BType.data "b", [1]),
        (Entry.mk BType.key "c", [2]), (Entry.mk BType.data "a", [3])]
        BType.data ↔
      (MemMap.find [(Entry.mk BType.data "b", [1]),
        (Entry.mk BType.key "c", [2]), (Entry.mk BType.data "a", [3])]
        (Entry.mk BType.data n)).isSome = true) :=
  spec_c7_list_sorted_snapshot [(Entry.mk BType.data "b", [1]),
    (Entry.mk BType.key "c", [2]), (Entry.mk BType.data "a", [3])]
    BType.data (by decide)

/-- C9: every operation that returns one of the error kinds leaves the blob
map exactly as it was before the call. The operations whose Go bodies never
assign `be.data` return the map unchanged unconditionally; the mutating
operations (finalize and remove) mutate only on their success paths, and
DeleteFn never returns an error. -/
theorem spec_c9_error_atomicity (vf : Handle → Option Err) (s : MemMap)
    (op : Op) (herr : (step vf s op).1.isErr = true) :
    (step vf s op).2 = s := by
  cases op with
  | test t n => rfl
  | listNames t => rfl
  | getReader t n o l =>
    cases hg : memGetReader s t n o l with
    | error er => simp [step, hg]
    | ok b => simp [step, hg]
  | load h plen off =>
    cases hl : memLoad vf s h plen off with
    | none => simp [step, hl]
    | some r =>
      obtain ⟨cnt, er⟩ := r
      simp [step, hl]
  | stat h =>
    cases hs2 : memStat vf s h with
    | error er => simp [step, hs2]
    | ok v => simp [step, hs2]
  | deleteAll => simp [step, DeleteFn, Res.isErr] at herr
  | finalize e t n =>
    cases hf : MemMap.find s
        (Entry.mk t (if t = BType.config then "" else n)) with
    | some v => simp [step, TempMemEntry.finalize, MemMap.insert, hf]
    | none =>
      simp [step, TempMemEntry.finalize, MemMap.insert, hf, Res.isErr] at herr
  | remove t n =>
    cases hf : MemMap.find s (Entry.mk t n) with
    | some v => simp [step, memRemove, hf, Res.isErr] at herr
    | none => simp [step, memRemove, hf]

/-- Witness for C9: a duplicate finalize against a one-entry store errors and
leaves the store unchanged. -/
theorem spec_c9_error_atomicity_witness :
    (step (fun _ => none) [(Entry.mk BType.data "a", [1])]
      (Op.finalize (TempMemEntry.mk [5]) BType.data "a")).2 =
      [(Entry.mk BType.data "a", [1])] :=
  spec_c9_error_atomicity (fun _ => none) [(Entry.mk BType.data "a", [1])]
    (Op.finalize (TempMemEntry.mk [5]) BType.data "a") (by decide)
